import Mathlib

/-!
Shallow embedding of the retrieval subsystem of the Wonder-AI backend
(`backend/app/services/vector_service.py` and the embedding fallback of
`backend/app/services/openai_service.py`), together with theorems settling
the specification claims about it.

Modelling conventions:
* Python strings are `List Char`; `str.strip()` is `pyStrip`, Python slices
  and `str.rfind` with int (possibly negative) indices are `pySlice` /
  `pyRfindSpace` with Python's index-normalisation semantics.
* Python dicts (`self.documents`, `self.chunks`) are insertion-ordered
  association lists; `d[k] = v` is `dictInsert` (update in place when the key
  exists, append otherwise), `d[k]` / `in` are `dictGet`.
* `uuid.uuid4()` is modelled as a fresh-id supply: document ids are the value
  of a `nextId` counter held in the state; chunk ids `f"{doc_id}_{i}"` are the
  pair `(doc_id, i)`.
* FAISS `IndexFlatIP` is the list of its vectors; `add` appends (vectors of
  the configured dimension never fail to add), `search` is exact top-k by
  inner product. Float vector components and scores are modelled as
  integers: every claim about them depends only on comparisons in a linearly
  ordered ring, never on specific fractional values.
* The embedding provider (`openai_service.generate_embeddings` as seen from
  the store) either returns a list of vectors or raises: type `Provider`.
  Python exception handling is explicit: `Except`/`Option` values, with each
  `except` block of the source reflected in the model.
* The `while` loop of `_chunk_text` is fuel-indexed (`none` = the Python loop
  has not finished within `fuel` iterations); `add_documents` is therefore
  `Option`-valued, `none` meaning the underlying call diverges.
* Timestamps (`datetime.utcnow`) and the best-effort disk persistence
  (`_save_index` / `_load_index`, which swallow all errors) are not observable
  by any claim and are modelled as absent / no-ops.
-/

namespace WonderAI

/-- Embedding vectors: float arrays, modelled as integer lists. -/
abbrev Vec := List ℤ

/-- Error value raised by the embedding provider. -/
abbrev EmbErr := String

/-- The embedding provider as the vector store sees it
(`openai_service.generate_embeddings`): one vector per input text, or an
exception. -/
abbrev Provider := List (List Char) → Except EmbErr (List Vec)

/-! ### Python dict operations (insertion-ordered association lists) -/

/-- Python `d[k]` / `k in d` on an insertion-ordered dict. -/
def dictGet [DecidableEq α] : List (α × β) → α → Option β
  | [], _ => none
  | (k, v) :: t, a => if k = a then some v else dictGet t a

/-- Python `d[k] = v`: update in place if the key exists, append otherwise. -/
def dictInsert [DecidableEq α] (l : List (α × β)) (a : α) (v : β) : List (α × β) :=
  if (dictGet l a).isSome then l.map (fun p => if p.1 = a then (a, v) else p)
  else l ++ [(a, v)]

/-! ### The chunker (`VectorStoreService._chunk_text`, lines 241-270) -/

/-- Python slice-index normalisation: negative indices count from the end and
clamp at 0; indices past the end clamp at the length. -/
def pyNorm (len : Nat) (i : Int) : Nat :=
  if i < 0 then ((len : Int) + i).toNat else min i.toNat len

/-- Python `t[a:b]` on a string, with int (possibly negative) indices. -/
def pySlice (t : List Char) (a b : Int) : List Char :=
  (t.take (pyNorm t.length b)).drop (pyNorm t.length a)

/-- Largest index `j` with `a ≤ j < b` and `t[j] = ' '`, scanning downward. -/
def lastSpaceAux (t : List Char) (a : Nat) : Nat → Option Nat
  | 0 => none
  | n + 1 => if a ≤ n ∧ t.get? n = some ' ' then some n else lastSpaceAux t a n

/-- Python `t.rfind(' ', a, b)`: `-1` when no space lies in the (normalised)
range, the largest such index otherwise. -/
def pyRfindSpace (t : List Char) (a b : Int) : Int :=
  match lastSpaceAux t (pyNorm t.length a) (pyNorm t.length b) with
  | some j => (j : Int)
  | none => -1

/-- Python `str.strip()`: drop whitespace from both ends. -/
def pyStrip (t : List Char) : List Char :=
  ((t.dropWhile Char.isWhitespace).reverse.dropWhile Char.isWhitespace).reverse

/-- The cut point computed by one iteration of the `_chunk_text` loop
(source lines 251-258): raw end `start + chunk_size`, backtracked to the last
space strictly after `start` when the raw end is interior to the text. -/
def cutEnd (t : List Char) (cs : Nat) (start : Int) : Int :=
  let e0 : Int := start + (cs : Int)
  if e0 < (t.length : Int) then
    let ls := pyRfindSpace t start e0
    if start < ls then ls else e0
  else e0

/-- The `while start < len(text)` loop of `_chunk_text` (source lines
250-268), fuel-indexed: `none` means the Python loop has not terminated
within `fuel` iterations. -/
def chunkLoop (t : List Char) (cs ov : Nat) :
    Nat → Int → List (List Char) → Option (List (List Char))
  | 0, start, acc => if start < (t.length : Int) then none else some acc
  | fuel + 1, start, acc =>
    if start < (t.length : Int) then
      let e := cutEnd t cs start
      let chunk := pyStrip (pySlice t start e)
      let acc' := if chunk ≠ [] then acc ++ [chunk] else acc
      -- `start = end - overlap if end < len(text) else end`; the source's
      -- following `if start >= len(text): break` repeats the loop guard.
      let start' := if e < (t.length : Int) then e - (ov : Int) else e
      chunkLoop t cs ov fuel start' acc'
    else some acc

/-- `VectorStoreService._chunk_text(text, chunk_size, overlap)`. -/
def chunkText (fuel : Nat) (t : List Char) (cs ov : Nat) : Option (List (List Char)) :=
  if t.length ≤ cs then some [t] else chunkLoop t cs ov fuel 0 []

/-- `_chunk_text` terminates on the given input (some fuel suffices). -/
def chunkTerminates (t : List Char) (cs ov : Nat) : Prop :=
  ∃ fuel, (chunkText fuel t cs ov).isSome

/-! ### The retrieval store state (`VectorStoreService.__init__`) -/

/-- Document metadata record (`self.documents[doc_id]`, source lines 79-86).
The `created_at` wall-clock timestamp is not modelled (no claim reads it). -/
structure Doc where
  title : String
  docType : String
  userId : Option String
  meta : List (String × String)
  deriving DecidableEq, Repr

/-- Chunk record (`self.chunks[chunk_id]`, source lines 104-110). -/
structure Chunk where
  documentId : Nat
  chunkIndex : Nat
  content : List Char
  meta : List (String × String)
  deriving DecidableEq, Repr

/-- The mutable state of `VectorStoreService`: the fresh-uuid supply, the two
metadata dicts and the FAISS index (its list of vectors, in insertion
order). -/
structure State where
  nextId : Nat
  documents : List (Nat × Doc)
  chunks : List ((Nat × Nat) × Chunk)
  index : List Vec
  deriving DecidableEq, Repr

/-- One input element of `add_documents`' `documents` list, with the source's
`doc.get(...)` defaults. -/
structure InDoc where
  title : String := "Untitled"
  docType : String := "text"
  content : List Char := []
  chunkSize : Nat := 1000
  overlap : Nat := 200
  meta : List (String × String) := []
  deriving DecidableEq, Repr

/-! ### Ingestion (`VectorStoreService.add_documents`, lines 60-123) -/

/-- Source lines 74-86: generate a fresh document id and store the document
metadata record. -/
def recordDoc (s : State) (d : InDoc) (uid : Option String) : State :=
  { s with
    nextId := s.nextId + 1
    documents := dictInsert s.documents s.nextId
      ⟨d.title, d.docType, uid, d.meta⟩ }

/-- Source lines 100-113: for each `(chunk, embedding)` pair of
`zip(chunks, embeddings)` in order, record the chunk under id
`(doc_id, chunk_index)` and append the vector to the index. -/
def addChunks (docId : Nat) (meta : List (String × String)) :
    State → Nat → List (List Char × Vec) → State
  | st, _, [] => st
  | st, i, (c, v) :: rest =>
    let st' := { st with
      chunks := dictInsert st.chunks (docId, i) ⟨docId, i, c, meta⟩
      index := st.index ++ [v] }
    addChunks docId meta st' (i + 1) rest

/-- The per-document `try` body of `add_documents` (lines 73-119): the id is
generated and the metadata stored first; then the content is chunked; if any
chunks result the provider is called, and a provider error is caught by the
`except` (line 117), leaving the document recorded with no chunks and moving
on. `none` = the chunker loop diverges (the Python call never returns). -/
def addDocBody (fuel : Nat) (p : Provider) (s : State) (d : InDoc)
    (uid : Option String) : Option (Nat × State) :=
  match chunkText fuel d.content d.chunkSize d.overlap with
  | none => none
  | some chunks =>
    if chunks.isEmpty then some (s.nextId, recordDoc s d uid)
    else
      match p chunks with
      | .error _ => some (s.nextId, recordDoc s d uid)
      | .ok embs =>
        some (s.nextId, addChunks s.nextId d.meta (recordDoc s d uid) 0 (chunks.zip embs))

/-- `add_documents(documents, user_id)`: processes each document in order,
collecting every generated id (ids are appended before anything can fail, so
failed documents are still reported); the final `_save_index` swallows its
errors and is a no-op here. -/
def addDocuments (fuel : Nat) (p : Provider) (s : State) (docs : List InDoc)
    (uid : Option String) : Option (List Nat × State) :=
  match docs with
  | [] => some ([], s)
  | d :: rest =>
    match addDocBody fuel p s d uid with
    | none => none
    | some (i, s') =>
      match addDocuments fuel p s' rest uid with
      | none => none
      | some (ids, s'') => some (i :: ids, s'')

/-! ### Similarity search (`VectorStoreService.search_similar`, lines 125-183) -/

/-- Inner product of two vectors (FAISS `IndexFlatIP` score). -/
def dot (u v : Vec) : ℤ := (u.zip v).foldl (fun a p => a + p.1 * p.2) 0

/-- Insert into a score-descending list of `(score, position)` pairs,
ties broken by smaller position. -/
def insertPair (x : ℤ × Nat) : List (ℤ × Nat) → List (ℤ × Nat)
  | [] => [x]
  | y :: ys =>
    if x.1 > y.1 ∨ (x.1 = y.1 ∧ x.2 < y.2) then x :: y :: ys else y :: insertPair x ys

/-- Sort `(score, position)` pairs by descending score, ties by position. -/
def sortPairsDesc (l : List (ℤ × Nat)) : List (ℤ × Nat) :=
  l.foldr insertPair []

/-- FAISS `IndexFlatIP.search(query, k)` restricted to its real entries:
the `min k ntotal` stored vectors of largest inner product with the query, as
`(score, position)` pairs in descending-score order. (When `k` exceeds the
index size FAISS pads the remaining slots with index `-1` and score `-inf`;
those padding entries always fail the threshold test at source line 149 and
are not modelled.) -/
def faissSearch (index : List Vec) (q : Vec) (k : Nat) : List (ℤ × Nat) :=
  (sortPairsDesc (index.enum.map (fun p => (dot q p.2, p.1)))).take k

/-- One entry of `search_similar`'s result list (source lines 162-173); the
merged metadata dict is carried as the `title`/`docType`/`chunkIndex` fields
overlaid on the chunk's copied metadata. -/
structure SearchResult where
  documentId : Nat
  chunkId : Nat × Nat
  content : List Char
  score : ℤ
  title : String
  docType : String
  chunkIndex : Nat
  meta : List (String × String)
  deriving DecidableEq, Repr

/-- Python truthiness of the `user_id: Optional[str]` filter at source line
157 (`if user_id and ...`): `None` and the empty string are falsy. -/
def optTruthy : Option String → Bool
  | none => false
  | some s => s ≠ ""

/-- Build the result dict of source lines 162-173. -/
def mkResult (score : ℤ) (cid : Nat × Nat) (ch : Chunk) (doc : Doc) : SearchResult :=
  ⟨ch.documentId, cid, ch.content, score, doc.title, doc.docType, ch.chunkIndex, ch.meta⟩

/-- The `for score, idx in zip(scores[0], indices[0])` loop of
`search_similar` (lines 148-173). `none` models a `KeyError` escaping the
loop (a desynchronised `self.documents`), which the enclosing `except`
turns into an empty result list. -/
def searchLoop (s : State) (thr : ℤ) (uid : Option String) :
    List (ℤ × Nat) → List SearchResult → Option (List SearchResult)
  | [], acc => some acc
  | (sc, idx) :: rest, acc =>
    if (s.chunks.map Prod.fst).length ≤ idx ∨ sc < thr then searchLoop s thr uid rest acc
    else
      match (s.chunks.map Prod.fst).get? idx with
      | none => none
      | some cid =>
        match dictGet s.chunks cid with
        | none => none
        | some ch =>
          match dictGet s.documents ch.documentId with
          | none => none
          | some doc =>
            if optTruthy uid ∧ doc.userId ≠ uid then searchLoop s thr uid rest acc
            else searchLoop s thr uid rest (acc ++ [mkResult sc cid ch doc])

/-- Stable insertion into a score-descending result list (a new result goes
after existing results of equal score, as Python's stable sort keeps it). -/
def insResult (x : SearchResult) : List SearchResult → List SearchResult
  | [] => [x]
  | y :: ys => if y.score < x.score then x :: y :: ys else y :: insResult x ys

/-- `results.sort(key=..., reverse=True)`: stable sort by descending
similarity score (source line 176). -/
def sortResultsDesc (l : List SearchResult) : List SearchResult :=
  l.foldl (fun acc x => insResult x acc) []

/-- `search_similar(query, k, similarity_threshold, user_id)`: embed the
query (provider errors and any in-loop `KeyError` are caught by the `except`
at line 181, which returns `[]`), run the FAISS search on the first query
vector, filter in the loop, then sort by descending score. -/
def searchSimilar (p : Provider) (s : State) (q : List Char) (k : Nat)
    (thr : ℤ) (uid : Option String) : List SearchResult :=
  match p [q] with
  | .error _ => []
  | .ok embs =>
    match embs with
    | [] => []
    | qv :: _ =>
      match searchLoop s thr uid (faissSearch s.index qv k) [] with
      | none => []
      | some results => sortResultsDesc results

/-! ### RAG context (`VectorStoreService.get_rag_context`, lines 185-210) -/

/-- The dict returned by `get_rag_context` (source lines 204-210). -/
structure RAGContext where
  query : List Char
  results : List SearchResult
  totalChunks : Nat
  maxChunks : Nat
  similarityThreshold : ℤ
  deriving DecidableEq, Repr

/-- `get_rag_context(query, max_chunks, similarity_threshold, user_id)`:
search with `k = max_chunks * 2`, truncate to `max_chunks`, wrap. -/
def getRagContext (p : Provider) (s : State) (q : List Char) (maxChunks : Nat)
    (thr : ℤ) (uid : Option String) : RAGContext :=
  let results := (searchSimilar p s q (maxChunks * 2) thr uid).take maxChunks
  ⟨q, results, results.length, maxChunks, thr⟩

/-! ### Deletion (`delete_document` lines 212-239, `_rebuild_index` 272-290) -/

/-- Source lines 220-229: remove the document's chunks from `self.chunks`,
then the document itself from `self.documents`. -/
def purgeDoc (s : State) (docId : Nat) : State :=
  { s with
    chunks := s.chunks.filter (fun c => c.2.documentId ≠ docId)
    documents := s.documents.filter (fun d => d.1 ≠ docId) }

/-- `_rebuild_index`: a fresh empty index when no chunks survive; otherwise
re-embed every surviving chunk's content and build the index from those
vectors (a provider error propagates to the caller; `_save_index` swallows
its own errors). -/
def rebuildIndex (p : Provider) (s : State) : Except EmbErr State :=
  if s.chunks.isEmpty then .ok { s with index := [] }
  else
    match p (s.chunks.map (fun c => c.2.content)) with
    | .error e => .error e
    | .ok embs => .ok { s with index := embs }

/-- `delete_document(document_id)`: `False` for an unknown id; otherwise
purge the metadata maps and rebuild the index — an exception during the
rebuild is caught by the `except` at line 237, which returns `False` with
the metadata maps already mutated and the index untouched. -/
def deleteDocument (p : Provider) (s : State) (docId : Nat) : Bool × State :=
  if (dictGet s.documents docId).isNone then (false, s)
  else
    match rebuildIndex p (purgeDoc s docId) with
    | .ok s2 => (true, s2)
    | .error _ => (false, purgeDoc s docId)

/-! ### The embedding fallback (`OpenAIService.generate_embeddings`,
`openai_service.py` lines 172-175) -/

/-- One mock vector: 1536 successive draws from the process-wide
`random.random()` stream, starting at stream position `ctr`. -/
def mockVec (draw : Nat → ℤ) (ctr : Nat) : Vec :=
  (List.range 1536).map (fun i => draw (ctr + i))

/-- The fallback branch of `generate_embeddings` when no OpenAI client is
configured: `[[random.random() for _ in range(1536)] for _ in texts]`.
`draw` is the global RNG's output stream and `ctr` the current stream
position; the call returns the vectors and the advanced position. -/
def mockEmbeddings (draw : Nat → ℤ) : Nat → List (List Char) → List Vec × Nat
  | ctr, [] => ([], ctr)
  | ctr, _ :: ts =>
    (mockVec draw ctr :: (mockEmbeddings draw (ctr + 1536) ts).1,
     (mockEmbeddings draw (ctr + 1536) ts).2)

/-! ### Invariants and provider hypotheses -/

/-- The §3 invariant: the number of vectors in the FAISS index equals the
number of recorded chunk ids. -/
def indexChunkInvariant (s : State) : Prop :=
  s.index.length = s.chunks.length

/-- Freshness of the id supply: every recorded document id and every chunk
id's document component is below the `nextId` counter (true of every state
reachable from the empty store, and the model of uuid4 never colliding). -/
def WellFormed (s : State) : Prop :=
  (∀ k ∈ s.documents.map Prod.fst, k < s.nextId) ∧
  (∀ k ∈ s.chunks.map Prod.fst, k.1 < s.nextId)

/-- A provider that never raises and returns one vector per input text
(the §6 collaborator contract). -/
def ProviderOk (p : Provider) : Prop :=
  ∀ ts, ∃ vs, p ts = .ok vs ∧ vs.length = ts.length

/-- Descending-score ordering on search results. -/
def ScoreDesc (a b : SearchResult) : Prop := b.score ≤ a.score

/-- Freshness bound on the chunk dict during the per-chunk loop of
`add_documents`: every present key belongs to an older document, or to the
current document with a smaller chunk index. -/
def ChunkKeysBelow (docId i : Nat) (s : State) : Prop :=
  ∀ k ∈ s.chunks.map Prod.fst, k.1 < docId ∨ (k.1 = docId ∧ k.2 < i)

/-! ### Concrete fixtures used by counterexamples and witnesses -/

/-- A provider whose every call raises. -/
def provFail : Provider := fun _ => .error "provider down"

/-- A provider returning the one-dimensional unit vector for every text. -/
def provUnit : Provider := fun ts => .ok (ts.map (fun _ => ([1] : Vec)))

/-- The freshly initialised store. -/
def state0 : State := ⟨0, [], [], []⟩

/-- The store after ingesting one empty-content document under `provUnit`:
the document is recorded together with one empty chunk and one vector. -/
def stateEmptyDoc : State :=
  ⟨1, [(0, ⟨"Untitled", "text", none, []⟩)],
   [((0, 0), ⟨0, 0, [], []⟩)], [[1]]⟩

/-- A store holding one document owned by `"bob"` with one chunk. -/
def stateBob : State :=
  ⟨1, [(0, ⟨"t", "text", some "bob", []⟩)],
   [((0, 0), ⟨0, 0, ['c'], []⟩)], [[1]]⟩

/-- A store holding one document owned by `"alice"` with one chunk. -/
def stateAlice : State :=
  ⟨1, [(0, ⟨"t", "text", some "alice", []⟩)],
   [((0, 0), ⟨0, 0, ['c'], []⟩)], [[1]]⟩

/-- A store holding two documents with one chunk and one vector each. -/
def stateTwoDocs : State :=
  ⟨2, [(0, ⟨"t", "text", none, []⟩), (1, ⟨"u", "text", none, []⟩)],
   [((0, 0), ⟨0, 0, ['x'], []⟩), ((1, 0), ⟨1, 0, ['y'], []⟩)], [[1], [2]]⟩

/-- An input document with short non-empty content (single-chunk ingest). -/
def inDocHi : InDoc := { content := ['h', 'i'] }

/-- The store after successfully ingesting `inDocHi` into the fresh store
under `provUnit`. -/
def stateHiDoc : State :=
  ⟨1, [(0, ⟨"Untitled", "text", none, []⟩)],
   [((0, 0), ⟨0, 0, ['h', 'i'], []⟩)], [[1]]⟩

/-- An input document with empty content. -/
def inDocEmpty : InDoc := { content := [] }

/-- Seven `a`s, no space: `_chunk_text` with `chunk_size = overlap = 3`
loops forever on it. -/
def textNoSpace7 : List Char := "aaaaaaa".toList

/-- Text whose second chunking window starts exactly on a space, forcing a
mid-word hard cut through `efghijkl`. -/
def textMidWord : List Char := "abcd efghijkl".toList

/-- The spec's word-boundary example text. -/
def textBoundary : List Char := "aaaa bbbb cccc".toList

/-- The search result produced from `stateEmptyDoc` by the unit provider. -/
def resEmptyDoc : SearchResult := ⟨0, (0, 0), [], 1, "Untitled", "text", 0, []⟩

/-- The search result produced from `stateAlice` (and from `stateBob`, whose
document carries the same title) by the unit provider. -/
def resOwned : SearchResult := ⟨0, (0, 0), ['c'], 1, "t", "text", 0, []⟩

/-- The integer-valued stream standing for the global `random.random()`
draws in counterexamples. -/
def natDraw : Nat → ℤ := fun n => (n : ℤ)

/-! ### Chunker lemmas -/

theorem lastSpaceAux_eq_none (t : List Char) (hsp : ∀ c ∈ t, c ≠ ' ') (a : Nat) :
    ∀ b, lastSpaceAux t a b = none := by
  intro b
  induction b with
  | zero => rfl
  | succ n ih =>
    unfold lastSpaceAux
    rw [if_neg, ih]
    rintro ⟨-, hget⟩
    exact hsp _ (List.get?_mem hget) rfl

theorem lastSpaceAux_mem {t : List Char} {a b j : Nat}
    (h : lastSpaceAux t a b = some j) :
    a ≤ j ∧ j < b ∧ t.get? j = some ' ' := by
  induction b with
  | zero => simp [lastSpaceAux] at h
  | succ n ih =>
    unfold lastSpaceAux at h
    split at h
    · rename_i hc
      cases h
      exact ⟨hc.1, Nat.lt_succ_self _, hc.2⟩
    · obtain ⟨h1, h2, h3⟩ := ih h
      exact ⟨h1, Nat.lt_succ_of_lt h2, h3⟩

theorem lastSpaceAux_ge {t : List Char} {a j : Nat}
    (ha : a ≤ j) (hget : t.get? j = some ' ') :
    ∀ b, j < b → ∃ j', lastSpaceAux t a b = some j' ∧ j ≤ j' := by
  intro b
  induction b with
  | zero => omega
  | succ n ih =>
    intro hj
    unfold lastSpaceAux
    split
    · exact ⟨n, rfl, by omega⟩
    · rename_i hc
      rcases Nat.lt_succ_iff_lt_or_eq.mp hj with h | h
      · exact ih h
      · exact absurd ⟨by omega, h ▸ hget⟩ hc

theorem pyNorm_of_nonneg {len : Nat} {i : Int} (h0 : 0 ≤ i) (hlen : i ≤ len) :
    pyNorm len i = i.toNat := by
  unfold pyNorm
  rw [if_neg (by omega)]
  omega

theorem pyRfindSpace_of_no_space {t : List Char} (hsp : ∀ c ∈ t, c ≠ ' ')
    (a b : Int) : pyRfindSpace t a b = -1 := by
  unfold pyRfindSpace
  rw [lastSpaceAux_eq_none t hsp]

/-- On a space-free text (with a nonnegative window start) no backtracking
happens: the cut is the raw cut `start + chunk_size`. -/
theorem cutEnd_of_no_space {t : List Char} (hsp : ∀ c ∈ t, c ≠ ' ')
    (cs : Nat) {start : Int} (h0 : 0 ≤ start) :
    cutEnd t cs start = start + cs := by
  show (if start + (cs : Int) < (t.length : Int) then
          if start < pyRfindSpace t start (start + (cs : Int)) then
            pyRfindSpace t start (start + (cs : Int))
          else start + (cs : Int)
        else start + (cs : Int)) = start + (cs : Int)
  rw [pyRfindSpace_of_no_space hsp]
  split
  · rw [if_neg (by omega)]
  · rfl

/-- Unfolding one iteration of the chunker loop when the guard holds. -/
theorem chunkLoop_succ (t : List Char) (cs ov fuel : Nat) (start : Int)
    (acc : List (List Char)) (hg : start < (t.length : Int)) :
    chunkLoop t cs ov (fuel + 1) start acc =
      chunkLoop t cs ov fuel
        (if cutEnd t cs start < (t.length : Int) then cutEnd t cs start - (ov : Int)
         else cutEnd t cs start)
        (if pyStrip (pySlice t start (cutEnd t cs start)) ≠ [] then
           acc ++ [pyStrip (pySlice t start (cutEnd t cs start))]
         else acc) := by
  show (if start < (t.length : Int) then
          chunkLoop t cs ov fuel
            (if cutEnd t cs start < (t.length : Int) then cutEnd t cs start - (ov : Int)
             else cutEnd t cs start)
            (if pyStrip (pySlice t start (cutEnd t cs start)) ≠ [] then
               acc ++ [pyStrip (pySlice t start (cutEnd t cs start))]
             else acc)
        else some acc) = _
  rw [if_pos hg]

/-- Once the window start has reached the end of the text the loop returns
its accumulator whatever the fuel. -/
theorem chunkLoop_isSome_of_done {t : List Char} {cs ov : Nat} {start : Int}
    (h : (t.length : Int) ≤ start) (fuel : Nat) (acc : List (List Char)) :
    (chunkLoop t cs ov fuel start acc).isSome := by
  cases fuel <;> simp [chunkLoop, if_neg (by omega : ¬ start < (t.length : Int))]

/-- Fuel bound for the chunker loop on space-free texts when
`overlap < chunk_size`: every iteration advances the start by
`chunk_size - overlap ≥ 1`. -/
theorem chunkLoop_isSome {t : List Char} {cs ov : Nat} (hov : ov < cs)
    (hsp : ∀ c ∈ t, c ≠ ' ') :
    ∀ (fuel : Nat) (start : Int) (acc : List (List Char)), 0 ≤ start →
      (t.length : Int) ≤ start + fuel * ((cs : Int) - ov) →
      (chunkLoop t cs ov fuel start acc).isSome := by
  intro fuel
  induction fuel with
  | zero =>
    intro start acc h0 hf
    simp only [Nat.cast_zero, zero_mul, add_zero] at hf
    exact chunkLoop_isSome_of_done hf 0 acc
  | succ n ih =>
    intro start acc h0 hf
    by_cases hg : start < (t.length : Int)
    · rw [chunkLoop_succ t cs ov n start acc hg, cutEnd_of_no_space hsp cs h0]
      by_cases he : start + (cs : Int) < (t.length : Int)
      · rw [if_pos he]
        apply ih _ _ (by omega)
        push_cast at hf ⊢
        linarith
      · rw [if_neg he]
        exact chunkLoop_isSome_of_done (by omega) n _
    · unfold chunkLoop
      rw [if_neg hg]
      rfl

/-- When the window `[start, start + cs)` is interior to the text and holds a
space strictly after `start`, the cut backtracks to a space. -/
theorem cutEnd_eq_space {t : List Char} {cs : Nat} {start : Int}
    (h0 : 0 ≤ start) (hin : start + (cs : Int) < (t.length : Int))
    {j : Nat} (hj1 : start < (j : Int)) (hj2 : (j : Int) < start + (cs : Int))
    (hsp : t.get? j = some ' ') :
    ∃ j' : Nat, cutEnd t cs start = (j' : Int) ∧ t.get? j' = some ' ' := by
  have hs : pyNorm t.length start = start.toNat := pyNorm_of_nonneg h0 (by omega)
  have he : pyNorm t.length (start + (cs : Int)) = (start + (cs : Int)).toNat :=
    pyNorm_of_nonneg (by omega) (by omega)
  obtain ⟨j', hj', hle⟩ :=
    lastSpaceAux_ge (a := start.toNat) (by omega) hsp
      ((start + (cs : Int)).toNat) (by omega)
  obtain ⟨hm1, hm2, hm3⟩ := lastSpaceAux_mem hj'
  have hr : pyRfindSpace t start (start + (cs : Int)) = (j' : Int) := by
    unfold pyRfindSpace
    rw [hs, he, hj']
  refine ⟨j', ?_, hm3⟩
  show (if start + (cs : Int) < (t.length : Int) then
          if start < pyRfindSpace t start (start + (cs : Int)) then
            pyRfindSpace t start (start + (cs : Int))
          else start + (cs : Int)
        else start + (cs : Int)) = (j' : Int)
  rw [if_pos hin, hr, if_pos (by omega)]

/-- When no space lies strictly after `start` inside the window, the raw hard
cut `start + cs` is accepted (even if a space sits exactly at `start`). -/
theorem cutEnd_eq_raw {t : List Char} {cs : Nat} {start : Int}
    (h0 : 0 ≤ start) (hin : start + (cs : Int) < (t.length : Int))
    (hno : ∀ j : Nat, start < (j : Int) → (j : Int) < start + (cs : Int) →
      t.get? j ≠ some ' ') :
    cutEnd t cs start = start + (cs : Int) := by
  have hs : pyNorm t.length start = start.toNat := pyNorm_of_nonneg h0 (by omega)
  have he : pyNorm t.length (start + (cs : Int)) = (start + (cs : Int)).toNat :=
    pyNorm_of_nonneg (by omega) (by omega)
  show (if start + (cs : Int) < (t.length : Int) then
          if start < pyRfindSpace t start (start + (cs : Int)) then
            pyRfindSpace t start (start + (cs : Int))
          else start + (cs : Int)
        else start + (cs : Int)) = start + (cs : Int)
  rw [if_pos hin]
  rcases hlsa : lastSpaceAux t (pyNorm t.length start)
      (pyNorm t.length (start + (cs : Int))) with - | j'
  · have hr : pyRfindSpace t start (start + (cs : Int)) = -1 := by
      unfold pyRfindSpace
      rw [hlsa]
    rw [hr, if_neg (by omega)]
  · have hr : pyRfindSpace t start (start + (cs : Int)) = (j' : Int) := by
      unfold pyRfindSpace
      rw [hlsa]
    obtain ⟨hm1, hm2, hm3⟩ := lastSpaceAux_mem hlsa
    rw [hs] at hm1
    rw [he] at hm2
    have : ¬ start < (j' : Int) := fun hlt => hno j' hlt (by omega) hm3
    rw [hr, if_neg this]

/-- On `textNoSpace7` with `chunk_size = overlap = 3` each iteration of the
loop maps window start 0 back to window start 0, emitting `"aaa"`. -/
theorem chunkLoop_textNoSpace7 :
    ∀ (n : Nat) (acc : List (List Char)),
      chunkLoop textNoSpace7 3 3 n 0 acc = none := by
  intro n
  induction n with
  | zero => intro acc; rfl
  | succ m ih =>
    intro acc
    show chunkLoop textNoSpace7 3 3 m 0 (acc ++ [['a', 'a', 'a']]) = none
    exact ih _

/-! ### Claim C4 (termination of the chunker) -/

/-- Claim C4, counterexample: on the space-free text `"aaaaaaa"` with
`chunk_size = 3` and `overlap = 3` (so `overlap >= chunk_size`, a case the
claim explicitly covers) the `_chunk_text` loop never terminates: every
iteration has `end = 3 < 7 = len(text)`, no space to backtrack to, and
`start = end - overlap = 0` again, so no amount of fuel completes the loop.
-/
theorem chunkText_overlap_eq_size_diverges_cex :
    ¬ chunkTerminates textNoSpace7 3 3 := by
  rintro ⟨fuel, hsome⟩
  unfold chunkText at hsome
  rw [if_neg (by decide), chunkLoop_textNoSpace7] at hsome
  simp at hsome

/-- Claim C4, amended: for every text containing no space and every
`chunk_size > overlap >= 0`, the chunking function terminates (each window
advances by `chunk_size - overlap >= 1`; the original claim's
`overlap >= chunk_size` case diverges, since the next start `end - overlap`
then fails to advance whenever `end` stays interior to the text). -/
theorem chunkText_terminates_no_space (t : List Char) (cs ov : Nat)
    (hov : ov < cs) (hsp : ∀ c ∈ t, c ≠ ' ') : chunkTerminates t cs ov := by
  by_cases hlen : t.length ≤ cs
  · exact ⟨0, by simp [chunkText, hlen]⟩
  · refine ⟨t.length, ?_⟩
    unfold chunkText
    rw [if_neg hlen]
    apply chunkLoop_isSome hov hsp _ _ _ le_rfl
    rw [zero_add]
    exact le_mul_of_one_le_right (Int.natCast_nonneg _) (by omega)

/-- Claim C4, witness: the space-free text `"abcde"` with `chunk_size = 2`,
`overlap = 1` satisfies the amended hypotheses and its chunking terminates. -/
theorem chunkText_terminates_no_space_witness :
    chunkTerminates ("abcde".toList) 2 1 :=
  chunkText_terminates_no_space ("abcde".toList) 2 1 (by omega) (by decide)

/-! ### Claim C9 (word-boundary backtracking) -/

/-- Claim C9, counterexample: for text `"abcd efghijkl"` with
`chunk_size = 5`, the second chunking window is `[4, 9)` and contains a space
(at index 4, the window start itself), yet the cut point stays at the raw
position 9 — between `'h'` and `'i'`, in the middle of the word `efghijkl` —
because the backtrack requires `last_space > start` and here
`rfind(' ', 4, 9) = 4 = start`. The full run with `overlap = 0` indeed splits
`efghijkl` across the chunks `"efgh"` and `"ijkl"`. -/
theorem cutEnd_space_at_window_start_cex :
    textMidWord.get? 4 = some ' ' ∧ cutEnd textMidWord 5 4 = 9 ∧
    textMidWord.get? 8 = some 'h' ∧ textMidWord.get? 9 = some 'i' ∧
    chunkText 20 textMidWord 5 0 =
      some ["abcd".toList, "efgh".toList, "ijkl".toList] :=
  ⟨rfl, rfl, rfl, rfl, rfl⟩

/-- Claim C9, amended: at each interior window boundary the chunker
backtracks the cut point to the nearest preceding space whenever a space
exists *strictly after the window start* within the window, so such a cut
always lands on a space (the chunk never ends mid-word); when no space lies
strictly after the window start — including the case where the only space of
the window sits exactly at its start — the hard cut `start + chunk_size` is
accepted. -/
theorem cutEnd_word_boundary (t : List Char) (cs : Nat) (start : Int)
    (h0 : 0 ≤ start) (hin : start + (cs : Int) < (t.length : Int)) :
    ((∃ j : Nat, start < (j : Int) ∧ (j : Int) < start + (cs : Int) ∧
        t.get? j = some ' ') →
      ∃ j' : Nat, cutEnd t cs start = (j' : Int) ∧ t.get? j' = some ' ') ∧
    ((∀ j : Nat, start < (j : Int) → (j : Int) < start + (cs : Int) →
        t.get? j ≠ some ' ') →
      cutEnd t cs start = start + (cs : Int)) :=
  ⟨fun ⟨_, hj1, hj2, hsp⟩ => cutEnd_eq_space h0 hin hj1 hj2 hsp,
   fun hno => cutEnd_eq_raw h0 hin hno⟩

/-- Claim C9, witness: on the spec's example text `"aaaa bbbb cccc"` with
`chunk_size = 9` the first window `[0, 9)` holds spaces after its start, and
the computed cut lands on a space. -/
theorem cutEnd_word_boundary_witness :
    ∃ j' : Nat, cutEnd textBoundary 9 0 = (j' : Int) ∧
      textBoundary.get? j' = some ' ' :=
  (cutEnd_word_boundary textBoundary 9 0 (by decide) (by decide)).1
    ⟨4, by decide, by decide, by decide⟩

/-! ### Dict lemmas -/

theorem dictGet_eq_none [DecidableEq α] {l : List (α × β)} {a : α}
    (h : ∀ k ∈ l.map Prod.fst, k ≠ a) : dictGet l a = none := by
  induction l with
  | nil => rfl
  | cons p t ih =>
    unfold dictGet
    rw [if_neg (h p.1 (by simp))]
    exact ih (fun k hk => h k (by simp [hk]))

theorem dictInsert_of_fresh [DecidableEq α] {l : List (α × β)} {a : α} (v : β)
    (h : dictGet l a = none) : dictInsert l a v = l ++ [(a, v)] := by
  unfold dictInsert
  rw [h]
  rfl

theorem dictGet_filter_out [DecidableEq α] (l : List (α × β)) (a : α) :
    dictGet (l.filter (fun p => p.1 ≠ a)) a = none := by
  apply dictGet_eq_none
  intro k hk
  simp only [List.mem_map, List.mem_filter] at hk
  obtain ⟨p, ⟨-, hp⟩, rfl⟩ := hk
  simpa using hp

/-! ### Search result sorting lemmas -/

theorem insResult_mem {y x : SearchResult} {l : List SearchResult} :
    y ∈ insResult x l ↔ y = x ∨ y ∈ l := by
  induction l with
  | nil => simp [insResult]
  | cons z zs ih =>
    unfold insResult
    split
    · simp
    · simp only [List.mem_cons, ih]
      tauto

theorem insResult_sorted {x : SearchResult} {l : List SearchResult}
    (h : l.Pairwise ScoreDesc) : (insResult x l).Pairwise ScoreDesc := by
  induction l with
  | nil => simp [insResult]
  | cons z zs ih =>
    rw [List.pairwise_cons] at h
    unfold insResult
    split
    · rename_i hlt
      refine List.pairwise_cons.mpr ⟨?_, List.pairwise_cons.mpr h⟩
      intro b hb
      rcases List.mem_cons.mp hb with rfl | hb
      · exact le_of_lt hlt
      · exact le_trans (h.1 b hb) (le_of_lt hlt)
    · rename_i hge
      refine List.pairwise_cons.mpr ⟨?_, ih h.2⟩
      intro b hb
      rcases insResult_mem.mp hb with rfl | hb
      · exact le_of_not_lt hge
      · exact h.1 b hb

theorem sortResultsDesc_mem {y : SearchResult} :
    ∀ {l acc : List SearchResult},
      y ∈ l.foldl (fun acc x => insResult x acc) acc → y ∈ acc ∨ y ∈ l := by
  intro l
  induction l with
  | nil => intro acc h; exact Or.inl h
  | cons z zs ih =>
    intro acc h
    rcases ih h with h' | h'
    · rcases insResult_mem.mp h' with rfl | h''
      · simp
      · exact Or.inl h''
    · simp [h']

theorem sortResultsDesc_sorted :
    ∀ (l acc : List SearchResult), acc.Pairwise ScoreDesc →
      (l.foldl (fun acc x => insResult x acc) acc).Pairwise ScoreDesc := by
  intro l
  induction l with
  | nil => intro acc h; exact h
  | cons z zs ih => intro acc h; exact ih _ (insResult_sorted h)

/-! ### Search loop lemmas -/

/-- Every result the `search_similar` loop appends passed the threshold test
and the owner filter, and its owning document was found in the metadata
map. -/
theorem searchLoop_mem {s : State} {thr : ℤ} {uid : Option String} :
    ∀ {pairs : List (ℤ × Nat)} {acc res : List SearchResult},
      searchLoop s thr uid pairs acc = some res →
      ∀ r ∈ res, r ∈ acc ∨
        (thr ≤ r.score ∧ ∃ doc, dictGet s.documents r.documentId = some doc ∧
          (optTruthy uid = true → doc.userId = uid)) := by
  intro pairs
  induction pairs with
  | nil =>
    intro acc res h r hr
    cases h
    exact Or.inl hr
  | cons pr rest ih =>
    intro acc res h r hr
    obtain ⟨sc, idx⟩ := pr
    unfold searchLoop at h
    split at h
    · exact ih h r hr
    · rename_i hguard
      split at h
      · exact absurd h (by simp)
      · rename_i cid hcid
        split at h
        · exact absurd h (by simp)
        · rename_i ch hch
          split at h
          · exact absurd h (by simp)
          · rename_i doc hdoc
            split at h
            · exact ih h r hr
            · rename_i hfilter
              rcases ih h r hr with hacc | hprop
              · rcases List.mem_append.mp hacc with hacc | hnew
                · exact Or.inl hacc
                · refine Or.inr ?_
                  have hr' : r = mkResult sc cid ch doc := by simpa using hnew
                  subst hr'
                  refine ⟨le_of_not_lt (fun hlt => hguard (Or.inr hlt)), doc, hdoc, ?_⟩
                  intro htr
                  by_contra hne
                  exact hfilter ⟨htr, hne⟩
              · exact Or.inr hprop

/-- Every result of `search_similar` passed the threshold test and the owner
filter, and its owning document exists in the metadata map. -/
theorem searchSimilar_mem {p : Provider} {s : State} {q : List Char} {k : Nat}
    {thr : ℤ} {uid : Option String} {r : SearchResult}
    (h : r ∈ searchSimilar p s q k thr uid) :
    thr ≤ r.score ∧ ∃ doc, dictGet s.documents r.documentId = some doc ∧
      (optTruthy uid = true → doc.userId = uid) := by
  unfold searchSimilar at h
  rcases hp : p [q] with e | embs <;> rw [hp] at h <;> dsimp only at h
  · exact absurd h (by simp)
  rcases embs with - | ⟨qv, rest⟩ <;> dsimp only at h
  · exact absurd h (by simp)
  rcases hloop : searchLoop s thr uid (faissSearch s.index qv k) [] with - | res <;>
      rw [hloop] at h <;> dsimp only at h
  · exact absurd h (by simp)
  rcases sortResultsDesc_mem h with habs | hres
  · exact absurd habs (by simp)
  rcases searchLoop_mem hloop r hres with habs | hprop
  · exact absurd habs (by simp)
  · exact hprop

/-- The output of `search_similar` is sorted by descending similarity
score. -/
theorem searchSimilar_sorted (p : Provider) (s : State) (q : List Char)
    (k : Nat) (thr : ℤ) (uid : Option String) :
    (searchSimilar p s q k thr uid).Pairwise ScoreDesc := by
  unfold searchSimilar
  rcases p [q] with e | embs <;> dsimp only
  · simp
  rcases embs with - | ⟨qv, rest⟩ <;> dsimp only
  · simp
  rcases searchLoop s thr uid (faissSearch s.index qv k) [] with - | res <;> dsimp only
  · simp
  · exact sortResultsDesc_sorted res [] (by simp)

/-! ### Ingestion and deletion lemmas -/

theorem state0_wf : WellFormed state0 := by
  constructor <;> intro k hk <;> simp [state0] at hk

theorem recordDoc_documents_eq {s : State} (hWF : WellFormed s) (d : InDoc)
    (uid : Option String) :
    (recordDoc s d uid).documents =
      s.documents ++ [(s.nextId, ⟨d.title, d.docType, uid, d.meta⟩)] := by
  unfold recordDoc
  exact dictInsert_of_fresh _
    (dictGet_eq_none (fun k hk heq => by have := hWF.1 k hk; omega))

theorem recordDoc_wf {s : State} (hWF : WellFormed s) (d : InDoc)
    (uid : Option String) : WellFormed (recordDoc s d uid) := by
  have hn : (recordDoc s d uid).nextId = s.nextId + 1 := rfl
  have hc : (recordDoc s d uid).chunks = s.chunks := rfl
  constructor
  · intro k hk
    rw [recordDoc_documents_eq hWF] at hk
    rw [hn]
    simp only [List.map_append, List.mem_append] at hk
    rcases hk with hk | hk
    · have := hWF.1 k hk
      omega
    · simp at hk
      omega
  · intro k hk
    rw [hc] at hk
    rw [hn]
    have := hWF.2 k hk
    omega

theorem addChunks_spec (docId : Nat) (meta : List (String × String)) :
    ∀ (l : List (List Char × Vec)) (st : State) (i : Nat),
      ChunkKeysBelow docId i st →
      (addChunks docId meta st i l).chunks.length = st.chunks.length + l.length ∧
      (addChunks docId meta st i l).index.length = st.index.length + l.length ∧
      ChunkKeysBelow docId (i + l.length) (addChunks docId meta st i l) ∧
      (addChunks docId meta st i l).documents = st.documents ∧
      (addChunks docId meta st i l).nextId = st.nextId := by
  intro l
  induction l with
  | nil =>
    intro st i hfresh
    exact ⟨rfl, rfl, hfresh, rfl, rfl⟩
  | cons cv rest ih =>
    intro st i hfresh
    obtain ⟨c, v⟩ := cv
    have hget : dictGet st.chunks (docId, i) = none := by
      apply dictGet_eq_none
      intro k hk heq
      rcases hfresh k hk with h | ⟨h1, h2⟩ <;> rw [heq] at * <;> omega
    have hstep : addChunks docId meta st i ((c, v) :: rest) =
        addChunks docId meta
          { st with chunks := st.chunks ++ [((docId, i), ⟨docId, i, c, meta⟩)],
                    index := st.index ++ [v] } (i + 1) rest := by
      show addChunks docId meta
        { st with chunks := dictInsert st.chunks (docId, i) ⟨docId, i, c, meta⟩,
                  index := st.index ++ [v] } (i + 1) rest = _
      rw [dictInsert_of_fresh _ hget]
    rw [hstep]
    have hfresh' : ChunkKeysBelow docId (i + 1)
        { st with chunks := st.chunks ++ [((docId, i), ⟨docId, i, c, meta⟩)],
                  index := st.index ++ [v] } := by
      intro k hk
      simp only [List.map_append, List.mem_append] at hk
      rcases hk with hk | hk
      · rcases hfresh k hk with h | ⟨h1, h2⟩
        · exact Or.inl h
        · exact Or.inr ⟨h1, by omega⟩
      · simp at hk
        rw [hk]
        exact Or.inr ⟨rfl, by omega⟩
    obtain ⟨hl, hi, hk, hd, hn⟩ := ih _ (i + 1) hfresh'
    refine ⟨by simp at hl ⊢; omega, by simp at hi ⊢; omega, ?_, hd, hn⟩
    have : i + 1 + rest.length = i + (rest.length + 1) := by omega
    rw [this] at hk
    simpa using hk

theorem addDocBody_preserves {fuel : Nat} {p : Provider} {s : State}
    {d : InDoc} {uid : Option String} {r : Nat} {s' : State}
    (h : addDocBody fuel p s d uid = some (r, s')) (hWF : WellFormed s) :
    r = s.nextId ∧ WellFormed s' ∧
    (indexChunkInvariant s → indexChunkInvariant s') := by
  unfold addDocBody at h
  split at h
  · exact absurd h (by simp)
  · rename_i chunks hct
    have hrec : WellFormed (recordDoc s d uid) := recordDoc_wf hWF d uid
    split at h
    · cases h
      exact ⟨rfl, hrec, fun hinv => hinv⟩
    · split at h
      · cases h
        exact ⟨rfl, hrec, fun hinv => hinv⟩
      · rename_i embs hembs
        cases h
        have hfresh : ChunkKeysBelow s.nextId 0 (recordDoc s d uid) := by
          intro k hk
          exact Or.inl (hWF.2 k hk)
        obtain ⟨hl, hi, hk, hd, hn⟩ :=
          addChunks_spec s.nextId d.meta (chunks.zip embs) (recordDoc s d uid) 0 hfresh
        refine ⟨rfl, ⟨?_, ?_⟩, ?_⟩
        · intro k hkd
          rw [hd] at hkd
          rw [hn]
          exact hrec.1 k hkd
        · intro k hkc
          have hrn : (recordDoc s d uid).nextId = s.nextId + 1 := rfl
          rw [hn, hrn]
          rcases hk k hkc with hlt | ⟨heq, -⟩ <;> omega
        · intro hinv
          have hrc : (recordDoc s d uid).chunks = s.chunks := rfl
          have hri : (recordDoc s d uid).index = s.index := rfl
          rw [hrc] at hl
          rw [hri] at hi
          unfold indexChunkInvariant at hinv ⊢
          omega

theorem addDocuments_preserves :
    ∀ (docs : List InDoc) (fuel : Nat) (p : Provider) (s : State)
      (uid : Option String) {ids : List Nat} {s' : State},
      addDocuments fuel p s docs uid = some (ids, s') → WellFormed s →
      WellFormed s' ∧ (indexChunkInvariant s → indexChunkInvariant s') := by
  intro docs
  induction docs with
  | nil =>
    intro fuel p s uid ids s' h hWF
    cases h
    exact ⟨hWF, fun hinv => hinv⟩
  | cons d rest ih =>
    intro fuel p s uid ids s' h hWF
    unfold addDocuments at h
    split at h
    · exact absurd h (by simp)
    · rename_i i s1 hbody
      split at h
      · exact absurd h (by simp)
      · rename_i ids1 s2 hrest
        cases h
        obtain ⟨-, hWF1, hinv1⟩ := addDocBody_preserves hbody hWF
        obtain ⟨hWF2, hinv2⟩ := ih fuel p s1 uid hrest hWF1
        exact ⟨hWF2, fun hinv => hinv2 (hinv1 hinv)⟩

theorem addDocuments_single {fuel : Nat} {p : Provider} {s : State}
    {d : InDoc} {uid : Option String} {r : Nat} {st : State}
    (hb : addDocBody fuel p s d uid = some (r, st)) :
    addDocuments fuel p s [d] uid = some ([r], st) := by
  unfold addDocuments
  rw [hb]
  rfl

theorem rebuildIndex_ok {p : Provider} (hp : ProviderOk p) (s : State) :
    ∃ s2, rebuildIndex p s = .ok s2 ∧ s2.chunks = s.chunks ∧
      s2.index.length = s.chunks.length := by
  unfold rebuildIndex
  split
  · rename_i hempty
    exact ⟨_, rfl, rfl, by simp [List.isEmpty_iff.mp hempty]⟩
  · obtain ⟨vs, hok, hlen⟩ := hp (s.chunks.map (fun c => c.2.content))
    rw [hok]
    exact ⟨_, rfl, rfl, by simpa using hlen⟩

theorem deleteDocument_inv {p : Provider} (hp : ProviderOk p) (s : State)
    (docId : Nat) (hinv : indexChunkInvariant s) :
    indexChunkInvariant (deleteDocument p s docId).2 := by
  unfold deleteDocument
  split
  · exact hinv
  · obtain ⟨s2, hok, hch, hil⟩ := rebuildIndex_ok hp (purgeDoc s docId)
    rw [hok]
    unfold indexChunkInvariant
    rw [hil, hch]

/-! ### Claim C6 (threshold filtering) -/

/-- Claim C6: for every provider, store state, query, `k`, threshold and
owner filter, no result whose similarity score is strictly below the given
threshold appears in the output of `search_similar` (the loop drops any pair
with `score < similarity_threshold`). -/
theorem searchSimilar_threshold_filtering (p : Provider) (s : State)
    (q : List Char) (k : Nat) (thr : ℤ) (uid : Option String)
    (r : SearchResult) (hr : r ∈ searchSimilar p s q k thr uid) :
    thr ≤ r.score :=
  (searchSimilar_mem hr).1

/-- Claim C6, witness: a concrete search over the one-chunk store
`stateEmptyDoc` with threshold 0 returns a result, and its score meets the
threshold. -/
theorem searchSimilar_threshold_filtering_witness :
    (0 : ℤ) ≤ resEmptyDoc.score :=
  searchSimilar_threshold_filtering provUnit stateEmptyDoc [] 5 0 none
    resEmptyDoc (by decide)

/-! ### Claim C7 (owner filtering) -/

/-- Claim C7, counterexample: the owner filter is tested with Python
truthiness (`if user_id and ...`), so the supplied empty-string filter
`owner_id = ""` is ignored: the search over `stateBob` — whose only document
is owned by `"bob" ≠ ""` — still returns that document's chunk. -/
theorem searchSimilar_empty_owner_filter_cex :
    searchSimilar provUnit stateBob ['c'] 5 0 (some "") = [resOwned] ∧
    dictGet stateBob.documents resOwned.documentId =
      some ⟨"t", "text", some "bob", []⟩ ∧
    some "bob" ≠ some "" := by
  refine ⟨by decide, by decide, by decide⟩

/-- Claim C7, amended: for every query with a *non-empty* owner filter
supplied, `search_similar` never returns a result whose owning document's
owner id differs from the filter value (an empty-string filter is falsy in
Python and disables the filter entirely). -/
theorem searchSimilar_owner_filtering (p : Provider) (s : State)
    (q : List Char) (k : Nat) (thr : ℤ) (u : String) (hu : u ≠ "")
    (r : SearchResult) (hr : r ∈ searchSimilar p s q k thr (some u)) :
    ∃ doc, dictGet s.documents r.documentId = some doc ∧
      doc.userId = some u := by
  obtain ⟨-, doc, hdoc, howner⟩ := searchSimilar_mem hr
  exact ⟨doc, hdoc, howner (by simp [optTruthy, hu])⟩

/-- Claim C7, witness: searching `stateAlice` with the non-empty owner
filter `"alice"` returns a result, and its owning document is owned by
`"alice"`. -/
theorem searchSimilar_owner_filtering_witness :
    ∃ doc, dictGet stateAlice.documents resOwned.documentId = some doc ∧
      doc.userId = some "alice" :=
  searchSimilar_owner_filtering provUnit stateAlice ['c'] 5 0 "alice"
    (by decide) resOwned (by decide)

/-! ### Claim C8 (RAG context assembly) -/

/-- Claim C8: for every query, `get_rag_context` takes the first
`max_chunks` elements of a `search_similar` call with `k = max_chunks * 2`,
its `total_chunks` equals the number of results returned, the results are
ordered by descending similarity score, and the envelope echoes the query
and parameters. -/
theorem getRagContext_spec (p : Provider) (s : State) (q : List Char)
    (mc : Nat) (thr : ℤ) (uid : Option String) :
    (getRagContext p s q mc thr uid).results =
      (searchSimilar p s q (mc * 2) thr uid).take mc ∧
    (getRagContext p s q mc thr uid).totalChunks =
      (getRagContext p s q mc thr uid).results.length ∧
    (getRagContext p s q mc thr uid).results.length ≤ mc ∧
    (getRagContext p s q mc thr uid).results.Pairwise ScoreDesc ∧
    (getRagContext p s q mc thr uid).query = q ∧
    (getRagContext p s q mc thr uid).maxChunks = mc ∧
    (getRagContext p s q mc thr uid).similarityThreshold = thr := by
  refine ⟨rfl, rfl, List.length_take_le mc _, ?_, rfl, rfl, rfl⟩
  exact (searchSimilar_sorted p s q (mc * 2) thr uid).sublist (List.take_sublist mc _)

/-! ### Claim C1 (error propagation from the embedding provider) -/

/-- Claim C1, counterexample: with a provider whose every call raises, the
ingest of one short document completes normally — returning its generated id
with the document recorded and zero chunks indexed (a silent partial
failure, caught by the per-document `except ... continue` at source line
117) — and a search returns the empty list instead of raising (the `except`
at line 181). Neither call propagates the provider error. -/
theorem ingest_error_not_propagated_cex :
    addDocuments 0 provFail state0 [inDocHi] none =
      some ([0], ⟨1, [(0, ⟨"Untitled", "text", none, []⟩)], [], []⟩) ∧
    searchSimilar provFail stateTwoDocs ['q'] 5 0 none = [] :=
  ⟨rfl, rfl⟩

/-- Claim C1, amended: embedding-provider errors do NOT propagate out of
`add_documents` or `search_similar`. An error during a document's embedding
call is caught per document: the call completes, still returns the
document's generated id, and leaves the document recorded with no chunks
and the index untouched (a silent partial failure). An error during a
search's query embedding is caught and the search returns the empty list. -/
theorem provider_errors_swallowed :
    (∀ (fuel : Nat) (p : Provider) (s : State) (d : InDoc)
       (uid : Option String) (e : EmbErr) (chunks : List (List Char)),
       chunkText fuel d.content d.chunkSize d.overlap = some chunks →
       chunks.isEmpty = false → p chunks = .error e →
       addDocuments fuel p s [d] uid = some ([s.nextId], recordDoc s d uid) ∧
       (recordDoc s d uid).chunks = s.chunks ∧
       (recordDoc s d uid).index = s.index) ∧
    (∀ (p : Provider) (s : State) (q : List Char) (k : Nat) (thr : ℤ)
       (uid : Option String) (e : EmbErr),
       p [q] = .error e → searchSimilar p s q k thr uid = []) := by
  constructor
  · intro fuel p s d uid e chunks hct hne hp
    refine ⟨?_, rfl, rfl⟩
    apply addDocuments_single
    unfold addDocBody
    rw [hct]
    dsimp only
    rw [hne, if_neg Bool.false_ne_true, hp]
  · intro p s q k thr uid e hp
    unfold searchSimilar
    rw [hp]

/-- Claim C1, witness: concrete runs discharging the amended theorem's
hypotheses with the always-failing provider. -/
theorem provider_errors_swallowed_witness :
    (addDocuments 0 provFail state0 [inDocHi] none =
       some ([0], recordDoc state0 inDocHi none) ∧
     (recordDoc state0 inDocHi none).chunks = state0.chunks ∧
     (recordDoc state0 inDocHi none).index = state0.index) ∧
    searchSimilar provFail stateTwoDocs ['q'] 5 0 none = [] :=
  ⟨provider_errors_swallowed.1 0 provFail state0 inDocHi none
     "provider down" [['h', 'i']] rfl rfl rfl,
   provider_errors_swallowed.2 provFail stateTwoDocs ['q'] 5 0 none
     "provider down" rfl⟩

/-! ### Claim C2 (index/chunk-sequence length invariant) -/

/-- Claim C2, counterexample: `stateTwoDocs` satisfies the invariant
(2 vectors, 2 chunks); deleting document 0 while the provider fails makes
`delete_document` complete (returning `False`), yet afterwards the index
still holds 2 vectors while only 1 chunk id remains — the metadata maps
were purged before the rebuild raised, and the old index was kept. -/
theorem delete_failed_rebuild_breaks_invariant_cex :
    indexChunkInvariant stateTwoDocs ∧
    (deleteDocument provFail stateTwoDocs 0).1 = false ∧
    (deleteDocument provFail stateTwoDocs 0).2.index.length = 2 ∧
    (deleteDocument provFail stateTwoDocs 0).2.chunks.length = 1 ∧
    ¬ indexChunkInvariant (deleteDocument provFail stateTwoDocs 0).2 := by
  refine ⟨rfl, rfl, rfl, rfl, ?_⟩
  intro h
  have h2 : (2 : Nat) = 1 := h
  omega

/-- Claim C2, amended: after any sequence of document additions (on a
well-formed store, i.e. with genuinely fresh generated ids) the number of
vectors in the index equals the number of recorded chunk ids; the same holds
after a delete provided the rebuild's embedding call succeeds and returns
one vector per surviving chunk — a failed rebuild breaks the invariant. -/
theorem indexChunkInvariant_preserved :
    (∀ (fuel : Nat) (p : Provider) (s : State) (docs : List InDoc)
       (uid : Option String) (ids : List Nat) (s' : State),
       addDocuments fuel p s docs uid = some (ids, s') →
       WellFormed s → indexChunkInvariant s → indexChunkInvariant s') ∧
    (∀ (p : Provider) (s : State) (docId : Nat),
       ProviderOk p → indexChunkInvariant s →
       indexChunkInvariant (deleteDocument p s docId).2) := by
  constructor
  · intro fuel p s docs uid ids s' h hWF hinv
    exact (addDocuments_preserves docs fuel p s uid h hWF).2 hinv
  · intro p s docId hp hinv
    exact deleteDocument_inv hp s docId hinv

/-- Claim C2, witness: the invariant holds concretely after ingesting one
document into the fresh store, and after deleting a document from
`stateTwoDocs` under a well-behaved provider. -/
theorem indexChunkInvariant_preserved_witness :
    indexChunkInvariant stateHiDoc ∧
    indexChunkInvariant (deleteDocument provUnit stateTwoDocs 0).2 :=
  ⟨indexChunkInvariant_preserved.1 0 provUnit state0 [inDocHi] none
     [0] stateHiDoc (by decide) state0_wf rfl,
   indexChunkInvariant_preserved.2 provUnit stateTwoDocs 0
     (fun ts => ⟨ts.map (fun _ => [1]), rfl, by simp⟩) rfl⟩

/-! ### Claim C3 (ingesting empty content) -/

/-- Claim C3, counterexample: `_chunk_text("")` returns `[""]` (source line
244), a non-empty list, so the `if chunks:` guard at line 96 passes:
ingesting an empty-content document records it with ONE chunk (the empty
string) — not zero — and a subsequent search can return a result referencing
that document. -/
theorem ingest_empty_content_cex :
    addDocuments 0 provUnit state0 [inDocEmpty] none =
      some ([0], stateEmptyDoc) ∧
    stateEmptyDoc.chunks.length = 1 ∧
    (searchSimilar provUnit stateEmptyDoc [] 5 0 none).map
      SearchResult.documentId = [0] :=
  ⟨rfl, rfl, rfl⟩

/-- Claim C3, amended: ingesting a document whose content is the empty
string raises no error and records the document — but with exactly one
chunk, whose content is the empty string (the chunker returns `[""]` and
the caller does not guard against it), and with one vector added to the
index; a subsequent search CAN return a result referencing that document
(shown here by a concrete run). -/
theorem ingest_empty_content_records_one_chunk (fuel : Nat) (p : Provider)
    (s : State) (d : InDoc) (uid : Option String) (v : Vec)
    (hWF : WellFormed s) (hcontent : d.content = []) (hp : p [[]] = .ok [v]) :
    addDocuments fuel p s [d] uid =
      some ([s.nextId],
        { nextId := s.nextId + 1,
          documents := s.documents ++
            [(s.nextId, ⟨d.title, d.docType, uid, d.meta⟩)],
          chunks := s.chunks ++ [((s.nextId, 0), ⟨s.nextId, 0, [], d.meta⟩)],
          index := s.index ++ [v] }) ∧
    (searchSimilar provUnit stateEmptyDoc [] 5 0 none).map
      SearchResult.documentId = [0] := by
  refine ⟨?_, rfl⟩
  have hct : chunkText fuel d.content d.chunkSize d.overlap = some [[]] := by
    rw [hcontent]
    unfold chunkText
    rw [if_pos (show ([] : List Char).length ≤ d.chunkSize by simp)]
  have hfreshchunk : dictGet s.chunks (s.nextId, 0) = none := by
    apply dictGet_eq_none
    intro k hk heq
    have := hWF.2 k hk
    rw [heq] at this
    omega
  have haddc : addChunks s.nextId d.meta (recordDoc s d uid) 0 ([[]].zip [v]) =
      { nextId := s.nextId + 1,
        documents := dictInsert s.documents s.nextId
          ⟨d.title, d.docType, uid, d.meta⟩,
        chunks := s.chunks ++ [((s.nextId, 0), ⟨s.nextId, 0, [], d.meta⟩)],
        index := s.index ++ [v] } := by
    show addChunks s.nextId d.meta
      { recordDoc s d uid with
        chunks := dictInsert s.chunks (s.nextId, 0) ⟨s.nextId, 0, [], d.meta⟩,
        index := s.index ++ [v] } 1 [] = _
    rw [dictInsert_of_fresh _ hfreshchunk]
    rfl
  have hbody : addDocBody fuel p s d uid =
      some (s.nextId, addChunks s.nextId d.meta (recordDoc s d uid) 0
        ([[]].zip [v])) := by
    unfold addDocBody
    rw [hct]
    dsimp only
    rw [if_neg (by decide), hp]
  have hdocs : dictInsert s.documents s.nextId
      (⟨d.title, d.docType, uid, d.meta⟩ : Doc) =
      s.documents ++ [(s.nextId, ⟨d.title, d.docType, uid, d.meta⟩)] :=
    dictInsert_of_fresh _
      (dictGet_eq_none (fun k hk heq => by have := hWF.1 k hk; omega))
  rw [addDocuments_single hbody, haddc, hdocs]

/-- Claim C3, witness: the amended theorem applied to the fresh store and
the unit provider. -/
theorem ingest_empty_content_records_one_chunk_witness :
    addDocuments 0 provUnit state0 [inDocEmpty] none =
      some ([0],
        { nextId := 1,
          documents := [] ++ [(0, ⟨"Untitled", "text", none, []⟩)],
          chunks := [] ++ [((0, 0), ⟨0, 0, [], []⟩)],
          index := [] ++ [[1]] }) ∧
    (searchSimilar provUnit stateEmptyDoc [] 5 0 none).map
      SearchResult.documentId = [0] :=
  ingest_empty_content_records_one_chunk 0 provUnit state0 inDocEmpty none
    [1] state0_wf rfl rfl

/-! ### Claim C5 (deterministic embedding fallback) -/

set_option maxRecDepth 8192 in
/-- Claim C5, counterexample: the fallback path of `generate_embeddings`
draws from the process-wide `random.random()` stream, so it is NOT a
deterministic function of its input: a first call on one text advances the
stream position by 1536, and a second call with the identical input (stream
position 1536) returns a different vector than the first (stream position
0) — here witnessed with the integer-valued draw stream. -/
theorem mockEmbeddings_not_deterministic_cex :
    (mockEmbeddings natDraw 0 [[]]).2 = 1536 ∧
    (mockEmbeddings natDraw 0 [[]]).1 ≠ (mockEmbeddings natDraw 1536 [[]]).1 := by
  refine ⟨rfl, ?_⟩
  intro h
  have h0 : (((mockEmbeddings natDraw 0 [[]]).1.headD []).headD 0) =
      (((mockEmbeddings natDraw 1536 [[]]).1.headD []).headD 0) := by
    rw [h]
  have h1 : ((0 : ℤ)) = (1536 : ℤ) := h0
  omega

set_option maxRecDepth 8192 in
/-- Claim C5, amended: the fallback path does return one vector of the
configured dimension 1536 per input text — the shape is deterministic — but
the vector contents come from the stateful global random stream, so two
calls with identical inputs need not return identical vectors. -/
theorem mockEmbeddings_shape (draw : Nat → ℤ) (ctr : Nat)
    (texts : List (List Char)) :
    (mockEmbeddings draw ctr texts).1.length = texts.length ∧
    ∀ v ∈ (mockEmbeddings draw ctr texts).1, v.length = 1536 := by
  induction texts generalizing ctr with
  | nil => exact ⟨rfl, by simp [mockEmbeddings]⟩
  | cons t ts ih =>
    constructor
    · show ((mockEmbeddings draw ctr (t :: ts)).1).length = ts.length + 1
      show (mockVec draw ctr :: (mockEmbeddings draw (ctr + 1536) ts).1).length =
        ts.length + 1
      simp [(ih (ctr + 1536)).1]
    · intro v hv
      have hv' : v ∈ mockVec draw ctr :: (mockEmbeddings draw (ctr + 1536) ts).1 :=
        hv
      rcases List.mem_cons.mp hv' with rfl | hv''
      · simp [mockVec]
      · exact (ih (ctr + 1536)).2 v hv''

/-! ### Claim C10 (delete is not atomic on rebuild failure) -/

/-- Claim C10: for a known document id, when the index rebuild's embedding
call raises after the document and its chunks have been removed from the
metadata maps, `delete_document` returns `False` while the metadata maps
remain mutated: the document and its chunks stay deleted (and the old index
is kept), so a `False` return does not imply the store is unchanged. -/
theorem deleteDocument_not_atomic (p : Provider) (s : State) (docId : Nat)
    (e : EmbErr) (hd : (dictGet s.documents docId).isSome)
    (hc : ¬ (purgeDoc s docId).chunks.isEmpty)
    (hp : p ((purgeDoc s docId).chunks.map (fun c => c.2.content)) = .error e) :
    deleteDocument p s docId = (false, purgeDoc s docId) ∧
    dictGet (purgeDoc s docId).documents docId = none ∧
    (purgeDoc s docId).chunks =
      s.chunks.filter (fun c => c.2.documentId ≠ docId) ∧
    (purgeDoc s docId).index = s.index := by
  refine ⟨?_, dictGet_filter_out s.documents docId, rfl, rfl⟩
  obtain ⟨v, hv⟩ := Option.isSome_iff_exists.mp hd
  unfold deleteDocument
  rw [hv]
  rw [if_neg (by simp)]
  unfold rebuildIndex
  rw [if_neg (by simpa using hc), hp]

/-- Claim C10, witness: deleting document 0 from `stateTwoDocs` under the
always-failing provider returns `False` with document 0 and its chunk gone
from the (mutated) metadata maps. -/
theorem deleteDocument_not_atomic_witness :
    deleteDocument provFail stateTwoDocs 0 =
      (false, purgeDoc stateTwoDocs 0) ∧
    dictGet (purgeDoc stateTwoDocs 0).documents 0 = none ∧
    (purgeDoc stateTwoDocs 0).chunks =
      stateTwoDocs.chunks.filter (fun c => c.2.documentId ≠ 0) ∧
    (purgeDoc stateTwoDocs 0).index = stateTwoDocs.index :=
  deleteDocument_not_atomic provFail stateTwoDocs 0 "provider down"
    (by decide) (by decide) rfl

end WonderAI
